import Mathlib

/-!
Verification development for the computing-serverless repository.

Part one embeds the catalog matcher of cmip6_variant_finder.py: tables of
runs keyed by (model, variant), the numpy intersect1d operation on key
arrays, the function find_common_models, and the export step of main.

Part two embeds the batch dispatcher of demo_run_lithops.py: input path
resolution, get_attrs and the attribute dictionaries, the preprocess and
process pipelines over an abstract xarray environment, the per-year job
dispatch of call_lambda, and the example transform tpw.

Machine floats of the source are modelled as exact rationals; the missing
value sentinel (numpy nan) is modelled as Option.none.
-/

/-- A (model, variant) pair, the lookup key of every runs table. -/
abbrev VariantKey := String × String

/-- Strict lexicographic comparison of character lists by code point, the
comparison Python uses between strings. -/
def strLtb : List Char → List Char → Bool
  | [], [] => false
  | [], _ :: _ => true
  | _ :: _, [] => false
  | c :: cs, d :: ds =>
      if c.toNat < d.toNat then true
      else if d.toNat < c.toNat then false
      else strLtb cs ds

/-- Lexicographic order on keys: by model, then by variant.  This is the
order of Python tuple comparison used by numpy when sorting an object
array of (model, variant) tuples. -/
def vkLe (a b : VariantKey) : Prop :=
  (strLtb a.1.data b.1.data ||
    (a.1 == b.1 && (strLtb a.2.data b.2.data || a.2 == b.2))) = true

instance : DecidableRel vkLe := fun a b =>
  inferInstanceAs (Decidable (_ = true))

/-- Model of numpy intersect1d on one-dimensional object arrays of keys:
the sorted list of the distinct values occurring in both inputs. -/
def intersect1d (xs ys : List VariantKey) : List VariantKey :=
  List.insertionSort vkLe ((xs.filter (fun x => decide (x ∈ ys))).dedup)

/-- One row of the concatenated scenario runs table built by
find_model_variants: index (model, variant), the url column, and the scen
column added per listing. -/
structure ScenarioRow where
  model : String
  variant : String
  url : String
  scen : String
deriving DecidableEq

/-- One row of the historical runs table: index (model, variant) and the
url column. -/
structure HistRow where
  model : String
  variant : String
  url : String
deriving DecidableEq

def ScenarioRow.key (r : ScenarioRow) : VariantKey := (r.model, r.variant)

def HistRow.key (r : HistRow) : VariantKey := (r.model, r.variant)

/-- The index values of the subset of the concatenated scenario table
belonging to one experiment name, as in
scenario_runs[scenario_runs.scenario == scen].index.values. -/
def scenKeys (sr : List ScenarioRow) (scen : String) : List VariantKey :=
  (sr.filter (fun r => decide (r.scen = scen))).map ScenarioRow.key

/-- Model of functools reduce applied to a list of key arrays; on an empty
list the source would raise, but the call site always passes a nonempty
list because the historical key array is appended. -/
def reduce1 (f : List VariantKey → List VariantKey → List VariantKey) :
    List (List VariantKey) → List VariantKey
  | [] => []
  | x :: xs => xs.foldl f x

/-- find_common_models from cmip6_variant_finder.py lines 60 to 72: if
either table is empty return an empty index, else reduce intersect1d over
the per-scenario key arrays followed by the historical key array. -/
def find_common_models (scenario_runs : List ScenarioRow) (historical_runs : List HistRow)
    (scens : List String) : List VariantKey :=
  if scenario_runs = [] ∨ historical_runs = [] then []
  else
    reduce1 intersect1d
      ((scens.map (fun scen => scenKeys scenario_runs scen)) ++
        [historical_runs.map HistRow.key])

lemma mem_intersect1d {k : VariantKey} {xs ys : List VariantKey} :
    k ∈ intersect1d xs ys ↔ k ∈ xs ∧ k ∈ ys := by
  unfold intersect1d
  rw [(List.perm_insertionSort vkLe _).mem_iff, List.mem_dedup, List.mem_filter]
  simp

lemma mem_foldl_intersect1d {k : VariantKey} (ls : List (List VariantKey))
    (acc : List VariantKey) :
    k ∈ ls.foldl intersect1d acc ↔ k ∈ acc ∧ ∀ l ∈ ls, k ∈ l := by
  induction ls generalizing acc with
  | nil => simp
  | cons a ls ih =>
      rw [List.foldl_cons, ih, mem_intersect1d, List.forall_mem_cons]
      tauto

lemma mem_find_common_models (sr : List ScenarioRow) (hr : List HistRow)
    (scens : List String) (hs : scens ≠ []) (k : VariantKey) :
    k ∈ find_common_models sr hr scens ↔
      (∀ scen ∈ scens, k ∈ scenKeys sr scen) ∧ k ∈ hr.map HistRow.key := by
  cases scens with
  | nil => exact absurd rfl hs
  | cons s rest =>
      unfold find_common_models
      by_cases hempty : sr = [] ∨ hr = []
      · rw [if_pos hempty]
        rcases hempty with h | h
        · subst h
          refine iff_of_false (List.not_mem_nil k) ?_
          rintro ⟨h1, -⟩
          have hk := h1 s (List.mem_cons_self s rest)
          simp [scenKeys] at hk
        · subst h
          refine iff_of_false (List.not_mem_nil k) ?_
          rintro ⟨-, h2⟩
          simp at h2
      · rw [if_neg hempty]
        have hsplit : ((s :: rest).map (fun scen => scenKeys sr scen)) ++
            [hr.map HistRow.key] =
            scenKeys sr s ::
              ((rest.map (fun scen => scenKeys sr scen)) ++ [hr.map HistRow.key]) := by
          simp
        rw [hsplit]
        show k ∈ List.foldl intersect1d (scenKeys sr s) _ ↔ _
        rw [mem_foldl_intersect1d, List.forall_mem_cons]
        constructor
        · rintro ⟨h1, h2⟩
          refine ⟨⟨h1, fun scen hscen => ?_⟩, ?_⟩
          · exact h2 _ (List.mem_append_left _ (List.mem_map_of_mem _ hscen))
          · exact h2 _ (List.mem_append_right _ (List.mem_singleton_self _))
        · rintro ⟨⟨h1, h2⟩, h3⟩
          refine ⟨h1, fun l hl => ?_⟩
          rcases List.mem_append.1 hl with hl' | hl'
          · rcases List.mem_map.1 hl' with ⟨scen, hscen, rfl⟩
            exact h2 scen hscen
          · rw [List.mem_singleton.1 hl']
            exact h3

/-- C1: for every collection of scenario tables and historical table, a
key is in the result of find_common_models exactly when it is a key of
every required per-scenario table and of the historical table; partial
coverage is excluded. -/
theorem find_common_models_is_intersection (sr : List ScenarioRow) (hr : List HistRow)
    (scens : List String) (hs : scens ≠ []) (k : VariantKey) :
    k ∈ find_common_models sr hr scens ↔
      (∀ scen ∈ scens, k ∈ scenKeys sr scen) ∧ k ∈ hr.map HistRow.key :=
  mem_find_common_models sr hr scens hs k

def c1sr : List ScenarioRow :=
  [⟨"modelA", "r1", "uA245", "ssp245"⟩, ⟨"modelB", "r1", "uB245", "ssp245"⟩,
   ⟨"modelA", "r1", "uA585", "ssp585"⟩]

def c1hr : List HistRow := [⟨"modelA", "r1", "uAh"⟩, ⟨"modelB", "r1", "uBh"⟩]

/-- Witness for C1 at the worked example of the spec: two scenarios, key
(modelA, r1) covered everywhere. -/
theorem find_common_models_is_intersection_witness :
    ("modelA", "r1") ∈ find_common_models c1sr c1hr ["ssp245", "ssp585"] ↔
      (∀ scen ∈ ["ssp245", "ssp585"], ("modelA", "r1") ∈ scenKeys c1sr scen) ∧
        ("modelA", "r1") ∈ c1hr.map HistRow.key :=
  find_common_models_is_intersection c1sr c1hr ["ssp245", "ssp585"] (by decide)
    ("modelA", "r1")

/-- The url column of the filtered concatenated table, as assigned to one
scenario column of the output in main: the mask keeps rows whose key is in
the matched index and whose scen column equals the scenario, in table
order. -/
def scenUrlCol (sr : List ScenarioRow) (common : List VariantKey) (scen : String) :
    List String :=
  (sr.filter (fun r => decide (r.key ∈ common) && decide (r.scen = scen))).map
    ScenarioRow.url

/-- Model of the loc lookup of the historical url column: for each matched
key in order, the url values of all historical rows with that key; none
models the KeyError raised when a key has no row. -/
def histLocUrls (hr : List HistRow) (common : List VariantKey) : Option (List String) :=
  if common.all (fun k => hr.any (fun r => decide (r.key = k))) then
    some ((common.map (fun k => (hr.filter (fun r => decide (r.key = k))).map
      HistRow.url)).flatten)
  else none

/-- The output table of main: model and variant columns from the matched
keys, one url column per scenario, and the historical url column. -/
structure ExportTable where
  models : List String
  variants : List String
  scenCols : List (String × List String)
  histUrls : List String
deriving DecidableEq

/-- The export step of main, lines 110 to 120: the per-scenario columns
are assigned positionally from the filtered table; the dataframe raises
when a column value array does not match the number of rows, and loc
raises when a key is missing, both modelled by none. -/
def buildExport (sr : List ScenarioRow) (hr : List HistRow) (common : List VariantKey)
    (scens : List String) : Option ExportTable :=
  let cols := scens.map (fun scen => (scen, scenUrlCol sr common scen))
  if cols.all (fun c => c.2.length = common.length) then
    match histLocUrls hr common with
    | some hs =>
        if hs.length = common.length then
          some ⟨common.map Prod.fst, common.map Prod.snd, cols, hs⟩
        else none
    | none => none
  else none

/-- The fixed scenario dictionary keys of main, in insertion order. -/
def SCENARIOS : List String := ["ssp245", "ssp585", "ssp126", "ssp370"]

/-- Observable outcome of main after the matching step. -/
inductive MainOutcome where
  | nothingFound
  | exportError
  | exported (t : ExportTable)
deriving DecidableEq

/-- main from cmip6_variant_finder.py: when no common variant is found it
reports nothing found and returns, otherwise it builds the export table. -/
def main_outcome (sr : List ScenarioRow) (hr : List HistRow) : MainOutcome :=
  if find_common_models sr hr SCENARIOS = [] then MainOutcome.nothingFound
  else
    match buildExport sr hr (find_common_models sr hr SCENARIOS) SCENARIOS with
    | some t => MainOutcome.exported t
    | none => MainOutcome.exportError

/-- C3: if the historical table, the concatenated scenario table, or the
per-scenario subset of any required scenario is empty, find_common_models
returns an empty matched set, and main takes the nothing-found branch. -/
theorem empty_table_gives_empty_match :
    (∀ (sr : List ScenarioRow) (hr : List HistRow) (scens : List String),
        (hr = [] ∨ sr = [] ∨ ∃ scen ∈ scens, scenKeys sr scen = []) →
        find_common_models sr hr scens = []) ∧
      ∀ (sr : List ScenarioRow) (hr : List HistRow),
        (hr = [] ∨ sr = [] ∨ ∃ scen ∈ SCENARIOS, scenKeys sr scen = []) →
        main_outcome sr hr = MainOutcome.nothingFound := by
  have h1 : ∀ (sr : List ScenarioRow) (hr : List HistRow) (scens : List String),
      (hr = [] ∨ sr = [] ∨ ∃ scen ∈ scens, scenKeys sr scen = []) →
      find_common_models sr hr scens = [] := by
    intro sr hr scens h
    rcases h with h | h | ⟨scen, hscen, hkeys⟩
    · subst h
      simp [find_common_models]
    · subst h
      simp [find_common_models]
    · have hs : scens ≠ [] := List.ne_nil_of_mem hscen
      rw [List.eq_nil_iff_forall_not_mem]
      intro k hk
      have hmem := (mem_find_common_models sr hr scens hs k).1 hk
      have hkk := hmem.1 scen hscen
      rw [hkeys] at hkk
      exact List.not_mem_nil k hkk
  refine ⟨h1, fun sr hr h => ?_⟩
  unfold main_outcome
  rw [h1 sr hr SCENARIOS h]
  simp

/-- Witness for C3: an empty concatenated scenario table. -/
theorem empty_table_gives_empty_match_witness :
    find_common_models [] c1hr ["ssp245"] = [] ∧
      main_outcome [] c1hr = MainOutcome.nothingFound :=
  ⟨empty_table_gives_empty_match.1 [] c1hr ["ssp245"] (Or.inr (Or.inl rfl)),
    empty_table_gives_empty_match.2 [] c1hr (Or.inr (Or.inl rfl))⟩

def c6sr : List ScenarioRow := [⟨"m", "r", "u", "s"⟩]

def c6hr : List HistRow := [⟨"modelB", "r1", "uB"⟩, ⟨"modelA", "r1", "uA"⟩]

/-- C6: the output of find_common_models is not always sorted: with an
empty required scenario list, reduce returns the historical key array
unchanged, so the returned key list is not sorted lexicographically by
model then variant for this input. -/
theorem find_common_models_not_always_sorted :
    ¬ List.Sorted vkLe (find_common_models c6sr c6hr []) := by
  decide

def c2sr : List ScenarioRow :=
  [⟨"b", "r1", "b245", "ssp245"⟩, ⟨"a", "r1", "a245", "ssp245"⟩,
   ⟨"a", "r1", "a585", "ssp585"⟩, ⟨"b", "r1", "b585", "ssp585"⟩,
   ⟨"a", "r1", "a126", "ssp126"⟩, ⟨"b", "r1", "b126", "ssp126"⟩,
   ⟨"a", "r1", "a370", "ssp370"⟩, ⟨"b", "r1", "b370", "ssp370"⟩]

def c2hr : List HistRow := [⟨"a", "r1", "ahist"⟩, ⟨"b", "r1", "bhist"⟩]

def c2table : ExportTable :=
  ⟨["a", "b"], ["r1", "r1"],
   [("ssp245", ["b245", "a245"]), ("ssp585", ["a585", "b585"]),
    ("ssp126", ["a126", "b126"]), ("ssp370", ["a370", "b370"])],
   ["ahist", "bhist"]⟩

/-- The url recorded for a key in the table of one scenario: the spec
notion of explicit per-key lookup. -/
def recordedScenUrl (sr : List ScenarioRow) (scen : String) (k : VariantKey) :
    Option String :=
  ((sr.filter (fun r => decide (r.scen = scen) && decide (r.key = k))).map
    ScenarioRow.url).head?

/-- C2 fails on the code: at this input the matched keys are the sorted
pair (a, r1), (b, r1), but the ssp245 listing order is reversed, so the
exported first row, whose key is (a, r1), carries the url b245 in the
ssp245 column, while the url recorded for (a, r1) in the ssp245 table is
a245: the code aligns the filtered rows positionally instead of looking up
each key. -/
theorem export_positional_mismatch :
    main_outcome c2sr c2hr = MainOutcome.exported c2table ∧
      c2table.models.head? = some "a" ∧
      (c2table.scenCols.head?.map Prod.snd).bind List.head? = some "b245" ∧
      recordedScenUrl c2sr "ssp245" ("a", "r1") = some "a245" ∧
      ("b245" : String) ≠ "a245" := by
  decide

/-- Input path resolution in the driver of demo_run_lithops.py, line 158:
take the last entry of the object store listing for a prefix and prepend
the scheme; none models the IndexError raised by indexing an empty
listing. -/
def resolve_input_url (globMatches : List String) : Option String :=
  (globMatches.getLast?).map (fun m => "s3://" ++ m)

/-- C7: the driver resolves a prefix to the last match of the listing when
one exists, and fails with an index-out-of-range condition exactly when
the listing is empty. -/
theorem resolve_input_url_last_or_fail (ms : List String) :
    (resolve_input_url ms = none ↔ ms = []) ∧
      ∀ l : String, ms.getLast? = some l →
        resolve_input_url ms = some ("s3://" ++ l) := by
  refine ⟨?_, ?_⟩
  · unfold resolve_input_url
    rw [Option.map_eq_none']
    exact List.getLast?_eq_none_iff
  · intro l hl
    simp [resolve_input_url, hl]

/-- Witness for C7: a two-element listing resolves to its last entry. -/
theorem resolve_input_url_last_or_fail_witness :
    resolve_input_url ["bkt/a/x/y", "bkt/a/x/z"] = some ("s3://" ++ "bkt/a/x/z") :=
  (resolve_input_url_last_or_fail ["bkt/a/x/y", "bkt/a/x/z"]).2 "bkt/a/x/z" rfl

/-- A Python dict of strings, modelled as an insertion-ordered association
list whose keys are unique by construction of the operations below. -/
abbrev AttrDict := List (String × String)

/-- Lookup of a key, the value of the first binding. -/
def dictGet : AttrDict → String → Option String
  | [], _ => none
  | p :: ps, k => if p.1 == k then some p.2 else dictGet ps k

def dictHasKey (d : AttrDict) (k : String) : Bool :=
  d.any (fun p => p.1 == k)

/-- Assignment d[k] = v: an existing binding keeps its position and gets
the new value, a new key is appended at the end. -/
def dictInsert (d : AttrDict) (k v : String) : AttrDict :=
  if dictHasKey d k then d.map (fun p => if p.1 == k then (k, v) else p)
  else d ++ [(k, v)]

/-- The double-splat merge of two dicts: every binding of the second is
assigned over a copy of the first, so on a shared key the second dict
wins. -/
def dictMerge (a b : AttrDict) : AttrDict :=
  b.foldl (fun acc p => dictInsert acc p.1 p.2) a

def dictKeys (d : AttrDict) : List String := d.map (fun p => p.1)

/-- The global template std_attrs of demo_run_lithops.py; the generation
timestamp is a parameter of the model since the source takes it from the
clock at import time. -/
def std_attrs (now : String) : AttrDict :=
  [("title", "Serverless Climate Data Processing Demo"),
   ("institution", "NC Institute for Climate Studies"),
   ("date", now)]

/-- Split a character list at every occurrence of a separator, the
behaviour of the Python split method with a one-character separator. -/
def splitOnChar : List Char → Char → List (List Char)
  | [], _ => [[]]
  | c :: cs, sep =>
      if c = sep then [] :: splitOnChar cs sep
      else
        match splitOnChar cs sep with
        | [] => [[c]]
        | w :: ws => (c :: w) :: ws

def pySplit (s : String) (sep : Char) : List String :=
  (splitOnChar s.data sep).map (fun w => String.mk w)

def pathSeg (url : String) (i : Nat) : Option String :=
  (pySplit url '/').get? i

/-- get_attrs from demo_run_lithops.py lines 48 to 60: copy the template
and assign model, scenario and variant from path segments 6, 7 and 8;
none models the IndexError raised when the path has too few segments. -/
def get_attrs (now url_in : String) : Option AttrDict :=
  match pathSeg url_in 6, pathSeg url_in 7, pathSeg url_in 8 with
  | some m, some s, some v =>
      some (dictInsert (dictInsert (dictInsert (std_attrs now) "model" m)
        "scenario" s) "variant" v)
  | _, _, _ => none

lemma dictGet_map_assign_ne (d : AttrDict) (k v k' : String) (hne : k' ≠ k) :
    dictGet (d.map (fun p => if p.1 == k then (k, v) else p)) k' = dictGet d k' := by
  induction d with
  | nil => rfl
  | cons p ps ih =>
      cases hpk : (p.1 == k) with
      | true =>
          have hkk' : (k == k') = false := beq_eq_false_iff_ne.2 (Ne.symm hne)
          have hpk' : (p.1 == k') = false := by
            rw [eq_of_beq hpk]
            exact hkk'
          simp only [List.map_cons, dictGet, hpk, if_true, hkk', hpk',
            Bool.false_eq_true, if_false]
          exact ih
      | false =>
          cases hpk' : (p.1 == k') with
          | true =>
              simp only [List.map_cons, dictGet, hpk, Bool.false_eq_true, if_false,
                hpk', if_true]
          | false =>
              simp only [List.map_cons, dictGet, hpk, hpk', Bool.false_eq_true,
                if_false]
              exact ih

lemma dictGet_append_single_ne (d : AttrDict) (k v k' : String) (hne : k' ≠ k) :
    dictGet (d ++ [(k, v)]) k' = dictGet d k' := by
  induction d with
  | nil =>
      have hkk' : (k == k') = false := beq_eq_false_iff_ne.2 (Ne.symm hne)
      simp [dictGet, hkk']
  | cons p ps ih =>
      cases hpk' : (p.1 == k') with
      | true => simp [dictGet, hpk']
      | false => simp [dictGet, hpk', ih]

lemma dictGet_insert_ne (d : AttrDict) (k v k' : String) (hne : k' ≠ k) :
    dictGet (dictInsert d k v) k' = dictGet d k' := by
  unfold dictInsert
  by_cases h : dictHasKey d k
  · rw [if_pos h]
    exact dictGet_map_assign_ne d k v k' hne
  · rw [if_neg h]
    exact dictGet_append_single_ne d k v k' hne

lemma dictGet_map_assign_self (d : AttrDict) (k v : String)
    (h : dictHasKey d k = true) :
    dictGet (d.map (fun p => if p.1 == k then (k, v) else p)) k = some v := by
  induction d with
  | nil => simp [dictHasKey] at h
  | cons p ps ih =>
      cases hpk : (p.1 == k) with
      | true => simp [dictGet, hpk]
      | false =>
          have hps : dictHasKey ps k = true := by
            simpa [dictHasKey, hpk] using h
          simp only [List.map_cons, dictGet, hpk, Bool.false_eq_true, if_false]
          exact ih hps

lemma dictGet_append_single_self (d : AttrDict) (k v : String)
    (h : dictHasKey d k = false) :
    dictGet (d ++ [(k, v)]) k = some v := by
  induction d with
  | nil => simp [dictGet]
  | cons p ps ih =>
      have hsplit : (p.1 == k) = false ∧ dictHasKey ps k = false := by
        constructor
        · cases hpk : (p.1 == k) with
          | true =>
              exfalso
              rw [dictHasKey, List.any_cons, hpk] at h
              simp at h
          | false => rfl
        · cases hps : dictHasKey ps k with
          | true =>
              exfalso
              rw [dictHasKey, List.any_cons] at h
              rw [dictHasKey] at hps
              rw [hps] at h
              simp at h
          | false => rfl
      simp only [List.cons_append, dictGet, hsplit.1, Bool.false_eq_true, if_false]
      exact ih hsplit.2

lemma dictGet_insert_self (d : AttrDict) (k v : String) :
    dictGet (dictInsert d k v) k = some v := by
  unfold dictInsert
  by_cases h : dictHasKey d k
  · rw [if_pos h]
    exact dictGet_map_assign_self d k v h
  · rw [if_neg h]
    exact dictGet_append_single_self d k v (by simpa using h)

lemma dictGet_merge_not_mem (b a : AttrDict) (k : String)
    (hk : ¬ k ∈ dictKeys b) :
    dictGet (dictMerge a b) k = dictGet a k := by
  induction b generalizing a with
  | nil => rfl
  | cons p ps ih =>
      simp only [dictKeys, List.map_cons, List.mem_cons] at hk
      push_neg at hk
      have hstep : dictMerge a (p :: ps) = dictMerge (dictInsert a p.1 p.2) ps := rfl
      rw [hstep, ih (dictInsert a p.1 p.2) hk.2,
        dictGet_insert_ne a p.1 p.2 k hk.1]

lemma dictGet_merge_mem (b a : AttrDict) (k : String)
    (hnd : (dictKeys b).Nodup) (hs : (dictGet b k).isSome) :
    dictGet (dictMerge a b) k = dictGet b k := by
  induction b generalizing a with
  | nil => simp [dictGet] at hs
  | cons p ps ih =>
      have hstep : dictMerge a (p :: ps) = dictMerge (dictInsert a p.1 p.2) ps := rfl
      rw [hstep]
      simp only [dictKeys, List.map_cons, List.nodup_cons] at hnd
      cases hpk : (p.1 == k) with
      | true =>
          have hp : p.1 = k := eq_of_beq hpk
          have hknotin : ¬ k ∈ dictKeys ps := by
            rw [← hp]
            exact hnd.1
          rw [dictGet_merge_not_mem ps _ k hknotin, ← hp,
            dictGet_insert_self a p.1 p.2]
          simp [dictGet, hpk]
      | false =>
          have hs' : (dictGet ps k).isSome := by
            simpa [dictGet, hpk] using hs
          rw [ih (dictInsert a p.1 p.2) hnd.2 hs']
          simp [dictGet, hpk]

lemma dictKeys_insert_nodup (d : AttrDict) (k v : String)
    (h : (dictKeys d).Nodup) : (dictKeys (dictInsert d k v)).Nodup := by
  unfold dictInsert
  by_cases hk : dictHasKey d k
  · rw [if_pos hk]
    have hkeys : dictKeys (d.map (fun p => if p.1 == k then (k, v) else p)) =
        dictKeys d := by
      unfold dictKeys
      rw [List.map_map]
      apply List.map_congr_left
      intro p _
      cases hpk : (p.1 == k) with
      | true =>
          simp only [Function.comp_apply, hpk, if_true]
          exact (eq_of_beq hpk).symm
      | false => simp [Function.comp_apply, hpk, ne_of_beq_false hpk]
    rw [hkeys]
    exact h
  · rw [if_neg hk]
    have hmem : ¬ k ∈ dictKeys d := by
      intro hm
      apply hk
      rcases List.mem_map.1 hm with ⟨p, hp, hpe⟩
      exact List.any_eq_true.2 ⟨p, hp, by simp [hpe]⟩
    unfold dictKeys
    rw [List.map_append]
    simp only [List.map_cons, List.map_nil]
    rw [List.nodup_append]
    refine ⟨h, List.nodup_singleton k, ?_⟩
    intro x hx hx'
    rw [List.mem_singleton.1 hx'] at hx
    exact hmem hx

lemma std_attrs_keys_nodup (now : String) : (dictKeys (std_attrs now)).Nodup := by
  show List.Nodup ["title", "institution", "date"]
  decide

lemma get_attrs_keys_nodup (now url : String) (g : AttrDict)
    (h : get_attrs now url = some g) : (dictKeys g).Nodup := by
  unfold get_attrs at h
  split at h
  · injection h with h
    subst h
    exact dictKeys_insert_nodup _ _ _ (dictKeys_insert_nodup _ _ _
      (dictKeys_insert_nodup _ _ _ (std_attrs_keys_nodup now)))
  · exact absurd h (by simp)

/-- C10: in the attribute merge performed by preprocess and process, a key
present both in the transform output attributes and in the dictionary
returned by get_attrs takes its value from get_attrs, and the global
std_attrs template is a pure constant that no call changes. -/
theorem get_attrs_overrides_transform_attrs :
    (∀ (now url k : String) (resultAttrs g : AttrDict),
        get_attrs now url = some g → (dictGet resultAttrs k).isSome →
        (dictGet g k).isSome →
        dictGet (dictMerge resultAttrs g) k = dictGet g k) ∧
      ∀ now : String, std_attrs now =
        [("title", "Serverless Climate Data Processing Demo"),
         ("institution", "NC Institute for Climate Studies"), ("date", now)] := by
  refine ⟨fun now url k resultAttrs g hg _ hsome => ?_, fun now => rfl⟩
  exact dictGet_merge_mem g resultAttrs k (get_attrs_keys_nodup now url g hg) hsome

def c10url : String := "s3://bkt/CMIP6/Act/Inst/Mod1/ssp585/r1i1p1f1/Amon/hus"

def c10g : AttrDict :=
  [("title", "Serverless Climate Data Processing Demo"),
   ("institution", "NC Institute for Climate Studies"),
   ("date", "2020-01-01"),
   ("model", "Mod1"), ("scenario", "ssp585"), ("variant", "r1i1p1f1")]

/-- Witness for C10: the key model collides between the transform output
attributes and the get_attrs dictionary, and the merged value is the one
from get_attrs. -/
theorem get_attrs_overrides_transform_attrs_witness :
    dictGet (dictMerge [("model", "old"), ("units", "mm")] c10g) "model" =
      dictGet c10g "model" :=
  get_attrs_overrides_transform_attrs.1 "2020-01-01" c10url "model"
    [("model", "old"), ("units", "mm")] c10g (by decide) (by decide) (by decide)

/-- A point of the time coordinate: the calendar year and an index
distinguishing timestamps within a year. -/
structure Timestamp where
  year : Int
  day : Nat
deriving DecidableEq

/-- The hus variable of a Zarr store: pressure level coordinates, one row
of values per timestamp with none modelling nan, and attributes. -/
structure DataArray where
  plev : List ℚ
  rows : List (Timestamp × List (Option ℚ))
  attrs : AttrDict
deriving DecidableEq

/-- A one-variable dataset over time, the shape of a transform output. -/
structure TDataset where
  varName : String
  series : List (Timestamp × ℚ)
  attrs : AttrDict
deriving DecidableEq

/-- The year filter of process, line 100: keep the entries whose timestamp
has the given year. -/
def whereYear (d : TDataset) (yr : Int) : TDataset :=
  { d with series := d.series.filter (fun p => decide (p.1.year = yr)) }

/-- The external xarray operations used by the pipelines, taken as an
abstract environment: opening a Zarr store and selecting the hus variable,
calendar conversion to a named calendar with a missing sentinel, and time
chunking. -/
structure XrEnv where
  open_zarr_hus : String → DataArray
  convert_calendar : DataArray → String → Option ℚ → DataArray
  chunk_time : DataArray → Nat → DataArray

/-- A write of a dataset to a Zarr store location with a mode string. -/
structure ZarrWrite where
  url : String
  data : TDataset
  mode : String
deriving DecidableEq

/-- preprocess from demo_run_lithops.py lines 62 to 83: open the hus
variable, convert the calendar to 366_day with the missing sentinel, chunk
time by 366, apply the transform, merge the transform attributes with
get_attrs, and write the shell with mode w; the return value is the lazy
pre-transform dataset and the output url, and none models the IndexError
of get_attrs on a malformed path. -/
def preprocess (env : XrEnv) (func : DataArray → TDataset)
    (now url_in url_out : String) : Option ((DataArray × String) × ZarrWrite) :=
  let ds0 := env.open_zarr_hus url_in
  let ds1 := env.convert_calendar ds0 "366_day" none
  let ds2 := env.chunk_time ds1 366
  let result := func ds2
  match get_attrs now url_in with
  | some g =>
      some ((ds2, url_out),
        { url := url_out
          data := { result with attrs := dictMerge result.attrs g }
          mode := "w" })
  | none => none

/-- process from demo_run_lithops.py lines 85 to 104: re-open the hus
variable, apply the same calendar conversion, chunking and transform,
filter to the given year, merge the attributes, and write the slice with
automatic region targeting. -/
def process (env : XrEnv) (func : DataArray → TDataset)
    (now url_in url_out : String) (yr : Int) : Option ZarrWrite :=
  let ds0 := env.open_zarr_hus url_in
  let ds1 := env.convert_calendar ds0 "366_day" none
  let ds2 := env.chunk_time ds1 366
  let result := func ds2
  let result2 := whereYear result yr
  match get_attrs now url_in with
  | some g =>
      some { url := url_out
             data := { result2 with attrs := dictMerge result2.attrs g }
             mode := "auto" }
  | none => none

/-- C8: process computes the same intermediate dataset as preprocess
before its year filter: on every environment, transform and input, the
write of process is exactly the write of preprocess with the year filter
applied to its data, because both pipelines open the same variable and
apply the identical calendar normalization, chunking and transform. -/
theorem process_matches_preprocess (env : XrEnv) (func : DataArray → TDataset)
    (now url_in url_out : String) (yr : Int) :
    process env func now url_in url_out yr =
      (preprocess env func now url_in url_out).map
        (fun p => { url := url_out, data := whereYear p.2.data yr, mode := "auto" }) := by
  unfold process preprocess
  cases hg : get_attrs now url_in with
  | none => simp [hg]
  | some g => simp [hg, whereYear]

/-- The dataset opened and normalized at the start of both pipelines, the
one whose time axis call_lambda enumerates. -/
def opened_dataset (env : XrEnv) (url_in : String) : DataArray :=
  env.chunk_time (env.convert_calendar (env.open_zarr_hus url_in) "366_day" none) 366

/-- The year of every entry of the time axis, as in ds.time.dt.year. -/
def dsYears (ds : DataArray) : List Int := ds.rows.map (fun r => r.1.year)

/-- Model of numpy unique on a one-dimensional integer array: the sorted
distinct values. -/
def uniqueInts (years : List Int) : List Int :=
  List.insertionSort (fun a b => a ≤ b) years.dedup

lemma mem_uniqueInts (y : Int) (ys : List Int) : y ∈ uniqueInts ys ↔ y ∈ ys := by
  unfold uniqueInts
  rw [(List.perm_insertionSort _ _).mem_iff, List.mem_dedup]

lemma nodup_uniqueInts (ys : List Int) : (uniqueInts ys).Nodup :=
  (List.perm_insertionSort _ _).nodup_iff.2 (List.nodup_dedup ys)

/-- One remote job submission: the argument tuple passed to process by the
executor map call. -/
structure Job where
  url_in : String
  url_out : String
  yr : Int
deriving DecidableEq

/-- call_lambda from demo_run_lithops.py lines 106 to 119: preprocess the
input once, build one argument tuple per distinct year of the time axis of
the lazily opened dataset, submit them through the executor map without
waiting, and return the input url as receipt. -/
def call_lambda (env : XrEnv) (func : DataArray → TDataset)
    (now url_in url_out : String) : Option (List Job × String) :=
  (preprocess env func now url_in url_out).map (fun p =>
    ((uniqueInts (dsYears p.1.1)).map (fun yr => ⟨url_in, p.1.2, yr⟩), url_in))

/-- C4: when call_lambda returns submissions, there is exactly one job per
distinct year of the time axis of the opened dataset, each job carries a
distinct year and the same input and output location pair, and the input
url is returned as the fire-and-forget receipt. -/
theorem call_lambda_one_job_per_year (env : XrEnv) (func : DataArray → TDataset)
    (now url_in url_out : String) (jobs : List Job) (receipt : String)
    (h : call_lambda env func now url_in url_out = some (jobs, receipt)) :
    (jobs.map Job.yr).Nodup ∧
      (∀ j ∈ jobs, j.url_in = url_in ∧ j.url_out = url_out) ∧
      (∀ y : Int, y ∈ jobs.map Job.yr ↔ y ∈ dsYears (opened_dataset env url_in)) ∧
      receipt = url_in := by
  have hform : call_lambda env func now url_in url_out =
      (get_attrs now url_in).map (fun _ =>
        ((uniqueInts (dsYears (opened_dataset env url_in))).map
          (fun yr => ⟨url_in, url_out, yr⟩), url_in)) := by
    unfold call_lambda preprocess opened_dataset
    cases get_attrs now url_in <;> rfl
  rw [hform] at h
  cases hg : get_attrs now url_in with
  | none =>
      rw [hg] at h
      exact absurd h (by simp)
  | some g =>
      rw [hg] at h
      simp only [Option.map_some', Option.some.injEq, Prod.mk.injEq] at h
      obtain ⟨hjobs, hreceipt⟩ := h
      subst hjobs
      subst hreceipt
      have hyears : (((uniqueInts (dsYears (opened_dataset env url_in))).map
          (fun yr => (⟨url_in, url_out, yr⟩ : Job))).map Job.yr) =
          uniqueInts (dsYears (opened_dataset env url_in)) := by
        rw [List.map_map]
        exact List.map_id _
      refine ⟨?_, ?_, ?_, rfl⟩
      · rw [hyears]
        exact nodup_uniqueInts _
      · intro j hj
        rcases List.mem_map.1 hj with ⟨yr, _, rfl⟩
        exact ⟨rfl, rfl⟩
      · intro y
        rw [hyears, mem_uniqueInts]

/-- Trapezoidal rule over coordinates xs and samples ys, the integration
rule xarray applies along a dimension. -/
def trapezoid : List ℚ → List ℚ → ℚ
  | x1 :: x2 :: xs, y1 :: y2 :: ys =>
      (x2 - x1) * (y1 + y2) / 2 + trapezoid (x2 :: xs) (y2 :: ys)
  | _, _ => 0

/-- The filled array after fillna: the missing entries are gone. -/
structure FilledArray where
  plev : List ℚ
  rows : List (Timestamp × List ℚ)
  attrs : AttrDict

/-- A time-indexed array, the result of integrating out pressure. -/
structure TimeArray where
  series : List (Timestamp × ℚ)
  attrs : AttrDict

def DataArray.clearAttrs (ds : DataArray) : DataArray := { ds with attrs := [] }

def DataArray.fillna0 (ds : DataArray) : FilledArray :=
  ⟨ds.plev, ds.rows.map (fun r => (r.1, r.2.map (fun v => v.getD 0))), ds.attrs⟩

def FilledArray.integrate_plev (ds : FilledArray) : TimeArray :=
  ⟨ds.rows.map (fun r => (r.1, trapezoid ds.plev r.2)), ds.attrs⟩

def TimeArray.to_dataset (t : TimeArray) (name : String) : TDataset :=
  ⟨name, t.series, t.attrs⟩

/-- Unary negation of a dataset; attributes are dropped, as xarray
arithmetic does by default. -/
def TDataset.negate (d : TDataset) : TDataset :=
  ⟨d.varName, d.series.map (fun p => (p.1, -p.2)), []⟩

/-- Division of a dataset by a constant; attributes are dropped. -/
def TDataset.divConst (d : TDataset) (c : ℚ) : TDataset :=
  ⟨d.varName, d.series.map (fun p => (p.1, p.2 / c)), []⟩

def TDataset.setAttr (d : TDataset) (k v : String) : TDataset :=
  { d with attrs := dictInsert d.attrs k v }

/-- tpw from demo_run_lithops.py lines 121 to 137: clear the input
attributes, fill missing with zero, integrate over the pressure levels,
wrap as the variable named tpw, negate and divide by 9.807 (the float
literal modelled as the exact rational), and set the units attribute. -/
def tpw (ds : DataArray) : TDataset :=
  TDataset.setAttr
    (TDataset.divConst
      (TDataset.negate
        (TimeArray.to_dataset
          (FilledArray.integrate_plev (DataArray.fillna0 (DataArray.clearAttrs ds)))
          "tpw"))
      (9807 / 1000))
    "units" "mm"

/-- C9: tpw returns a dataset with the single variable named tpw whose
value at each timestamp is the negated pressure-level integral of the
input with missing values replaced by zero, divided by 9.807, and whose
attributes carry units mm. -/
theorem tpw_closed_form (ds : DataArray) :
    (tpw ds).varName = "tpw" ∧
      (tpw ds).series = ds.rows.map (fun r =>
        (r.1, -(trapezoid ds.plev (r.2.map (fun v => v.getD 0))) / (9807 / 1000))) ∧
      (tpw ds).attrs = [("units", "mm")] := by
  refine ⟨rfl, ?_, rfl⟩
  simp only [tpw, TDataset.setAttr, TDataset.divConst, TDataset.negate,
    TimeArray.to_dataset, FilledArray.integrate_plev, DataArray.fillna0,
    DataArray.clearAttrs, List.map_map]
  rfl

def c4da : DataArray :=
  ⟨[], [(⟨2015, 0⟩, []), (⟨2016, 0⟩, []), (⟨2017, 0⟩, []), (⟨2015, 1⟩, []),
    (⟨2016, 1⟩, [])], []⟩

def c4env : XrEnv := ⟨fun _ => c4da, fun d _ _ => d, fun d _ => d⟩

def c4jobs : List Job :=
  [⟨c10url, "out", 2015⟩, ⟨c10url, "out", 2016⟩, ⟨c10url, "out", 2017⟩]

/-- Witness for C4: a five-timestamp axis spanning 2015 to 2017 yields
exactly three submissions, one per distinct year. -/
theorem call_lambda_one_job_per_year_witness :
    ((c4jobs.map Job.yr).Nodup ∧
      (∀ j ∈ c4jobs, j.url_in = c10url ∧ j.url_out = "out") ∧
      (∀ y : Int, y ∈ c4jobs.map Job.yr ↔ y ∈ dsYears (opened_dataset c4env c10url)) ∧
      c10url = c10url) ∧ c4jobs.length = 3 :=
  ⟨call_lambda_one_job_per_year c4env tpw "2020-01-01" c10url "out" c4jobs c10url
    (by decide), by decide⟩

lemma flatten_filter_perm {α : Type} (f : α → Int) :
    ∀ (ys : List Int) (l : List α), ys.Nodup → (∀ a ∈ l, f a ∈ ys) →
      ((ys.map (fun y => l.filter (fun a => decide (f a = y)))).flatten).Perm l := by
  intro ys
  induction ys with
  | nil =>
      intro l _ hcov
      cases l with
      | nil => simp
      | cons a l => exact absurd (hcov a (List.mem_cons_self a l)) (List.not_mem_nil _)
  | cons y ys ih =>
      intro l hnd hcov
      rw [List.nodup_cons] at hnd
      have hne : ∀ y' ∈ ys, y' ≠ y := fun y' hy' he => hnd.1 (he ▸ hy')
      have hkey : ∀ y' ∈ ys, l.filter (fun a => decide (f a = y')) =
          (l.filter (fun a => !decide (f a = y))).filter
            (fun a => decide (f a = y')) := by
        intro y' hy'
        rw [List.filter_filter]
        apply List.filter_congr
        intro a _
        by_cases hfa : f a = y'
        · have hfay : ¬ f a = y := by
            rw [hfa]
            exact hne y' hy'
          simp [hfa, hfay, hne y' hy']
        · simp [hfa]
      have hmapeq : ys.map (fun y' => l.filter (fun a => decide (f a = y'))) =
          ys.map (fun y' => (l.filter (fun a => !decide (f a = y))).filter
            (fun a => decide (f a = y'))) :=
        List.map_congr_left hkey
      have hcov' : ∀ a ∈ l.filter (fun a => !decide (f a = y)), f a ∈ ys := by
        intro a ha
        rw [List.mem_filter] at ha
        have hm := hcov a ha.1
        rw [List.mem_cons] at hm
        rcases hm with he | hm
        · exfalso
          have hb : (!decide (f a = y)) = true := ha.2
          rw [he] at hb
          simp at hb
        · exact hm
      have hperm := ih (l.filter (fun a => !decide (f a = y))) hnd.2 hcov'
      have h0 : ((y :: ys).map (fun y' => l.filter (fun a => decide (f a = y')))).flatten =
          l.filter (fun a => decide (f a = y)) ++
            (ys.map (fun y' => (l.filter (fun a => !decide (f a = y))).filter
              (fun a => decide (f a = y')))).flatten := by
        rw [List.map_cons, List.flatten_cons, hmapeq]
      rw [h0]
      exact (hperm.append_left _).trans (List.filter_append_perm _ l)

/-- C5: the per-year filter of process partitions the time range: joining
the whereYear slices over the distinct years present in the time axis is a
permutation of the original series, so every timestamp is reconstructed
exactly once, with no gaps and no overlaps between year slices. -/
theorem whereYear_partitions_series (d : TDataset) :
    (((uniqueInts (d.series.map (fun p => p.1.year))).map
      (fun y => (whereYear d y).series)).flatten).Perm d.series := by
  have hnd : (uniqueInts (d.series.map (fun p => p.1.year))).Nodup :=
    nodup_uniqueInts _
  have hcov : ∀ p ∈ d.series, p.1.year ∈
      uniqueInts (d.series.map (fun q => q.1.year)) := by
    intro p hp
    rw [mem_uniqueInts]
    exact List.mem_map_of_mem _ hp
  exact flatten_filter_perm (fun p => p.1.year) _ d.series hnd hcov
